import Mathlib

/-
Verification of the sierra swapchain / descriptor-instance core.

The definitions below are a shallow embedding of the Rust sources:
  * src/backend/vulkan/swapchain.rs   (Swapchain::configure / acquire_image /
    SwapchainImage::presented and the retirement-queue drain loop)
  * proc/src/descriptors/instance.rs  (the generated DescriptorsInstance
    update engine: ring growth, per-binding diffing, uniform block handling)
  * src/descriptor/buffer.rs          (TypedDescriptorBinding for Buffer and
    BufferRange)

Opaque GPU primitives (semaphores, native vulkan calls, the encoder) are
modelled by identities (Nat) and by oracle streams giving the results of the
native calls; machine integers are Nat with explicit reduction mod 2 ^ 32
where u32 wrap-around matters.
-/

namespace Sierra

/- ## Swapchain model (src/backend/vulkan/swapchain.rs) -/

/-- The caller-visible error type from src/surface.rs (`SurfaceError`). -/
inductive SurfaceErrM where
  | outOfMemory
  | notSupported
  | usageNotSupported
  | surfaceLost
  | formatUnsupported
  | presentModeUnsupported
  | alreadyUsed
  | windowIsInUse
  | initializationFailed
  | tooManyAcquired
  | notConfigured
  deriving DecidableEq, Repr

/-- One swapchain generation (`SwapchainInner`): the image count of its
`images` vector, the `acquired_counter`, the negotiated usage/format/mode
(opaque identities) and the `optimal` flag.  The native handle, the extent
and the per-image semaphores are opaque and not needed by the claims. -/
structure InnerM where
  images : Nat
  acquired : Nat
  usage : Nat
  format : Nat
  mode : Nat
  optimal : Bool
  deriving DecidableEq, Repr

/-- The `Swapchain` state relevant to acquisition: the optional current
generation and the cached `surface_capabilities.min_image_count`.  The
retirement queue is modelled separately (see `drainRetired`). -/
structure SwapchainM where
  inner : Option InnerM
  minImageCount : Nat
  deriving DecidableEq, Repr

/-- u32 subtraction with wrap-around, for
`inner.images.len() as u32 - self.surface_capabilities.min_image_count.get()`. -/
def u32sub (a b : Nat) : Nat := (a + 2 ^ 32 - b) % 2 ^ 32

/-- The `TooManyAcquired` guard of `acquire_image`:
`acquired_counter > images.len() - min_image_count`. -/
def tooManyCheck (images minCount acquired : Nat) : Bool :=
  decide (acquired > u32sub images minCount)

/-- Surface capabilities re-queried by `configure`
(`SurfaceCapabilities`, src/surface.rs); only the fields `configure` reads. -/
structure CapsM where
  minImageCount : Nat
  maxImageCount : Option Nat
  supportedUsageMask : Nat
  formats : List Nat
  presentModes : List Nat
  deriving DecidableEq, Repr

/-- Largest u32: the `!0` in `caps.max_image_count.map_or(!0, NonZeroU32::get)`. -/
def U32MAX : Nat := 2 ^ 32 - 1

/-- `Ord::clamp` for unsigned integers:
`if self < min { min } else if self > max { max } else { self }`. -/
def rustClamp (x lo hi : Nat) : Nat :=
  if x < lo then lo else if hi < x then hi else x

/-- The image count chosen by `configure`:
`3.clamp(caps.min_image_count.get(), caps.max_image_count.map_or(!0, NonZeroU32::get))`. -/
def imageCountOf (caps : CapsM) : Nat :=
  rustClamp 3 caps.minImageCount (caps.maxImageCount.getD U32MAX)

/-- `ImageUsage::contains` on bitmasks: every bit of `usage` is supported. -/
def usageSupported (mask usage : Nat) : Bool :=
  decide (usage &&& mask = usage)

/-- Oracle for one `configure` call: the capabilities the surface reports,
the result of the native `create_swapchain_khr` call (`none` = success) and
whether the per-image semaphore allocation fails with out-of-memory. -/
structure ConfEnv where
  caps : CapsM
  createErr : Option SurfaceErrM
  semaphoreErr : Bool
  deriving DecidableEq, Repr

/-- Result of `configure`: `Ok(())` or a `SurfaceError`, together with the
swapchain state it leaves behind (Rust mutates `self` in place). -/
inductive ConfResult where
  | ok (sw : SwapchainM)
  | err (e : SurfaceErrM) (sw : SwapchainM)
  deriving DecidableEq, Repr

/-- `Swapchain::configure(usage, format, mode)`.  Order follows the source:
the capabilities are re-queried (updating `surface_capabilities`) before the
usage/format/present-mode validation; only after validation is the current
generation taken out of `inner` and pushed to the retirement queue (the
queue itself is modelled by `drainRetired` below); then the native swapchain
is created (failure keeps `inner = none`), the semaphores are allocated
(failure maps to `OutOfMemory`), and on success the new generation is
installed with `acquired_counter = 0` and `optimal = true`. -/
def configureSw (sw : SwapchainM) (env : ConfEnv) (usage format mode : Nat) : ConfResult :=
  let caps := env.caps
  let sw0 : SwapchainM := { sw with minImageCount := caps.minImageCount }
  if usageSupported caps.supportedUsageMask usage = false then
    .err .usageNotSupported sw0
  else if caps.formats.contains format = false then
    .err (.formatUnsupported) sw0
  else if caps.presentModes.contains mode = false then
    .err (.presentModeUnsupported) sw0
  else
    let sw1 : SwapchainM := { sw0 with inner := none }
    match env.createErr with
    | some e => .err e sw1
    | none =>
      if env.semaphoreErr then .err .outOfMemory sw1
      else
        let gen : InnerM :=
          { images := imageCountOf caps, acquired := 0, usage := usage,
            format := format, mode := mode, optimal := true }
        .ok { sw1 with inner := some gen }

/-- Result of the native `acquire_next_image_khr` call, as matched by
`acquire_image`. -/
inductive NativeAcq where
  | success (idx : Nat)
  | suboptimal (idx : Nat)
  | outOfDate
  | surfaceLost
  | outOfDeviceMemory
  | outOfHostMemory
  | unexpected (code : Nat)
  deriving DecidableEq, Repr

/-- Outcome of `acquire_image`: an acquired image (its index, the `optimal`
flag of the returned `SwapchainImage`, and the updated swapchain), an error
with the updated state, a process-fatal condition (`out_of_host_memory` /
`unexpected_result`), or exhaustion of the loop fuel / oracle streams. -/
inductive AcqResult where
  | image (idx : Nat) (optimal : Bool) (sw : SwapchainM)
  | err (e : SurfaceErrM) (sw : SwapchainM)
  | fatal
  | stuck
  deriving DecidableEq, Repr

/-- `Swapchain::acquire_image(optimal)`.  `natives` is the stream of results
of the successive native acquire calls, `confs` the oracle stream for the
internal `configure` calls; `fuel` bounds the retry loop.  The semaphore
rotation (`mem::swap` with `free_semaphore`) is not observable by any claim
and is omitted; the `acquired_counter` increment and the `optimal` handling
follow the source. -/
def acquireImage : Bool → SwapchainM → List NativeAcq → List ConfEnv → Nat → AcqResult
  | _, _, _, _, 0 => .stuck
  | optimalReq, sw, natives, confs, fuel + 1 =>
    match sw.inner with
    | none => .err .notConfigured sw
    | some inner =>
      if tooManyCheck inner.images sw.minImageCount inner.acquired then
        .err .tooManyAcquired sw
      else if optimalReq && !inner.optimal then
        match confs with
        | [] => .stuck
        | env :: confs2 =>
          match configureSw sw env inner.usage inner.format inner.mode with
          | .err e sw2 => .err e sw2
          | .ok sw2 => acquireImage optimalReq sw2 natives confs2 fuel
      else
        match natives with
        | [] => .stuck
        | n :: natives2 =>
          match n with
          | .success idx =>
            .image idx inner.optimal
              { sw with inner := some { inner with acquired := inner.acquired + 1 } }
          | .suboptimal idx =>
            let inner2 := { inner with optimal := false, acquired := inner.acquired + 1 }
            .image idx false { sw with inner := some inner2 }
          | .outOfDate =>
            match confs with
            | [] => .stuck
            | env :: confs2 =>
              match configureSw sw env inner.usage inner.format inner.mode with
              | .err e sw2 => .err e sw2
              | .ok sw2 => acquireImage optimalReq sw2 natives2 confs2 fuel
          | .surfaceLost => .err .surfaceLost sw
          | .outOfDeviceMemory => .err .outOfMemory sw
          | .outOfHostMemory => .fatal
          | .unexpected _ => .fatal

/-- `SwapchainImage::presented`: `acquired_counter.fetch_sub(1)` on the
owning generation. -/
def presentedM (sw : SwapchainM) : SwapchainM :=
  { sw with inner := sw.inner.map (fun inner => { inner with acquired := inner.acquired - 1 }) }

/-- A configured swapchain state with a given image count, minimum image
count and acquired counter (usage/format/mode are irrelevant identities). -/
def mkSw (imgs minc acq : Nat) : SwapchainM :=
  let gen : InnerM :=
    { images := imgs, acquired := acq, usage := 0, format := 0, mode := 0, optimal := true }
  { inner := some gen, minImageCount := minc }

/-- States of the acquire/present protocol on one configured generation:
the set of acquired-counter values reachable from a fresh configuration by
successful acquires (native result `SUCCESS`) and presents. -/
inductive Reach (imgs minc : Nat) : Nat → Prop where
  | init : Reach imgs minc 0
  | acquire (n idx : Nat) : Reach imgs minc n →
      acquireImage false (mkSw imgs minc n) [NativeAcq.success idx] [] 1 =
        AcqResult.image idx true (mkSw imgs minc (n + 1)) →
      Reach imgs minc (n + 1)
  | present (n : Nat) : Reach imgs minc (n + 1) →
      presentedM (mkSw imgs minc (n + 1)) = mkSw imgs minc n →
      Reach imgs minc n

/- ## Retirement queue drain (Swapchain::configure, lines 194-208) -/

/-- A retired swapchain image: the number of outstanding external references;
`Image::try_dispose` succeeds exactly when there are none. -/
structure RImage where
  refs : Nat
  deriving DecidableEq, Repr

/-- A retired generation: the index under which the device registered the
native swapchain (used by `device.destroy_swapchain`) and its image vector. -/
structure RGen where
  index : Nat
  images : List RImage
  deriving DecidableEq, Repr

/-- The inner `while let Some(mut iws) = inner.images.pop()` loop, acting on
the reversed image vector (`Vec::pop` takes from the end): images are
disposed while `try_dispose` succeeds; the first still-referenced image is
pushed back and the loop breaks.  `none` means every image was disposed. -/
def popDisposable : List RImage → Option (List RImage)
  | [] => none
  | i :: rest => if i.refs = 0 then popDisposable rest else some (i :: rest)

/-- Effect of the inner loop on a generation's image vector (in vector
order). -/
def drainGenImages (l : List RImage) : Option (List RImage) :=
  (popDisposable l.reverse).map List.reverse

/-- The `'a: while let Some(mut inner) = self.retired.pop_front()` drain loop
of `configure`.  Returns the indices passed to `device.destroy_swapchain`,
the generations that were popped and then dropped by `break 'a` without
being destroyed or re-queued, and the remaining retirement queue. -/
def drainRetired : List RGen → List Nat × List RGen × List RGen
  | [] => ([], [], [])
  | g :: rest =>
    match drainGenImages g.images with
    | none =>
      let out := drainRetired rest
      (g.index :: out.1, out.2.1, out.2.2)
    | some imgs => ([], [{ g with images := imgs }], rest)

/- ## Buffer descriptor bindings (src/descriptor/buffer.rs) -/

/-- `BufferInfo`, restricted to the field the binding equality reads. -/
structure BufferInfoM where
  size : Nat
  deriving DecidableEq, Repr

/-- A buffer: an identity (Rust `PartialEq` on `Buffer` compares handles)
and its creation info. -/
structure BufferM where
  id : Nat
  info : BufferInfoM
  deriving DecidableEq, Repr

/-- `BufferRange { buffer, offset, size }`. -/
structure BufferRangeM where
  buffer : BufferM
  offset : Nat
  size : Nat
  deriving DecidableEq, Repr

/-- Modelled from the spec: `crate::buffer::BufferRange::whole` is not under
src/ (only its callers are); the spec describes the resolved value of a
plain-`Buffer` binding as the whole-buffer range, so the range covers the
buffer from offset 0 to its full `info` size. -/
def BufferRangeM.whole (b : BufferM) : BufferRangeM :=
  { buffer := b, offset := 0, size := b.info.size }

/-- `Result<T, OutOfMemory>` for binding resolution. -/
inductive DescResult (α : Type) where
  | ok (val : α)
  | outOfMemory
  deriving DecidableEq, Repr

/-- `<Buffer as TypedDescriptorBinding>::eq`:
`range[0].buffer == *self && range[0].offset == 0 && range[0].size == self.info().size`. -/
def bufferTdbEq (b : BufferM) (r : BufferRangeM) : Bool :=
  decide (r.buffer = b) && decide (r.offset = 0) && decide (r.size = b.info.size)

/-- `<Buffer as TypedDescriptorBinding>::get_descriptors`:
`Ok([BufferRange::whole(self.clone())])`. -/
def bufferGetDescriptors (b : BufferM) : DescResult BufferRangeM :=
  .ok (BufferRangeM.whole b)

/-- `<BufferRange as TypedDescriptorBinding>::eq`: `*self == range[0]`. -/
def bufferRangeTdbEq (r other : BufferRangeM) : Bool :=
  decide (r = other)

/-- `<BufferRange as TypedDescriptorBinding>::get_descriptors`:
`Ok([self.clone()])`. -/
def bufferRangeGetDescriptors (r : BufferRangeM) : DescResult BufferRangeM :=
  .ok r

/- ## Descriptor instance update engine (proc/src/descriptors/instance.rs)

The proc macro generates, for each declared descriptor struct, an
`*Instance` type with a `cycle: Vec<*Elem>` ring and an `update` method.
The embedding below is the generated code for an arbitrary declaration:
`DeclM` carries the declaration (the ordered binding kinds and whether an
inline uniform block is present), elements carry one cached descriptor
option per binding in declaration order. -/

/-- A cached descriptor value, one of the per-kind cache field types:
`Sampler`, `ImageViewDescriptor` (layout pinned to `ShaderReadOnlyOptimal`),
`CombinedImageSampler` (ditto), `BufferRange`, `AccelerationStructure`. -/
inductive Desc where
  | sampler (s : Nat)
  | imageView (view : Nat)
  | combined (view : Nat) (sampler : Nat)
  | bufferRange (range : BufferRangeM)
  | accel (a : Nat)
  deriving DecidableEq, Repr

/-- The closed set of binding kinds dispatched on by the generated code. -/
inductive BindKind where
  | sampler
  | sampledImage
  | combinedImageSampler
  | uniformBuffer
  | storageBuffer
  | accelStructure
  deriving DecidableEq, Repr

/-- Whether the kind resolves through a fallible call (`get_view` /
`get_range`); sampler and acceleration-structure inputs are cloned directly
and cannot fail. -/
def BindKind.fallible : BindKind → Bool
  | .sampler => false
  | .accelStructure => false
  | _ => true

/-- The caller's logical value for one binding: the descriptor value it
currently resolves to (the generated equality compares exactly this against
the cache: resolved view for image kinds, resolved buffer range for buffer
kinds, the handle itself for sampler/acceleration-structure) and whether the
resolution call would report out-of-memory right now. -/
structure BInput where
  val : Desc
  fail : Bool
  deriving DecidableEq, Repr

/-- Result of the generated per-binding `update_descriptor_statements`
block: the new cache slot plus the `write_*_descriptor` flag, or an
out-of-memory abort. -/
inductive BindStep where
  | ok (cached : Option Desc) (write : Bool)
  | oomStep
  deriving DecidableEq, Repr

/-- One binding's diff step: if the cache holds a value equal to the input's
resolved value the write flag stays false and the cache is kept; otherwise
(changed or empty cache) the input is resolved — propagating out-of-memory
for fallible kinds — stored, and the write flag set. -/
def updateBinding (k : BindKind) (inp : BInput) (cached : Option Desc) : BindStep :=
  match cached with
  | some d =>
    if inp.val = d then .ok (some d) false
    else if k.fallible && inp.fail then .oomStep
    else .ok (some inp.val) true
  | none =>
    if k.fallible && inp.fail then .oomStep
    else .ok (some inp.val) true

/-- Result of running all per-binding statements in declaration order: the
cache column and the write flags, or an abort carrying the caches as already
mutated (bindings before the failing one updated, the failing one and all
later ones untouched). -/
inductive BindingsOut where
  | ok (cached : List (Option Desc)) (flags : List Bool)
  | oomBind (cached : List (Option Desc))
  deriving DecidableEq, Repr

/-- The sequence of generated `update_descriptor_statements`, one per
binding in declaration order; the first out-of-memory aborts the whole
sequence.  The catch-all for mismatched lengths is unreachable for generated
code, where inputs and caches are fields of the same declaration. -/
def updateBindings : List BindKind → List BInput → List (Option Desc) → BindingsOut
  | k :: ks, i :: is, c :: cs =>
    match updateBinding k i c with
    | .oomStep => .oomBind (c :: cs)
    | .ok c2 w =>
      match updateBindings ks is cs with
      | .ok cs2 ws => .ok (c2 :: cs2) (w :: ws)
      | .oomBind cs2 => .oomBind (c2 :: cs2)
  | _, _, cs => .ok cs []

/-- One ring slot (`*InstanceElem`): the descriptor set identity, the cached
descriptor per binding in declaration order, and — when the declaration has
an inline uniform block — the cached `(uniforms value, backing buffer
range)` pair. -/
structure ElemM where
  set : Nat
  descriptors : List (Option Desc)
  uniformsBuffer : Option (Nat × BufferRangeM)
  deriving DecidableEq, Repr

/-- The declaration the macro expanded: ordered binding kinds, whether an
inline uniform block exists, and `size_of` of the uniforms struct. -/
structure DeclM where
  kinds : List BindKind
  hasUniforms : Bool
  uniformsSize : Nat
  deriving DecidableEq, Repr

/-- Device model for the update engine: a fresh-identity counter for
descriptor sets and buffers, plus out-of-memory oracles for
`create_descriptor_set` and `create_buffer`. -/
structure DeviceM where
  fresh : Nat
  setAllocFail : Bool
  bufferAllocFail : Bool
  deriving DecidableEq, Repr

/-- The caller's input struct: the logical value of every binding in
declaration order and the uniforms value `copy_from_input` would produce. -/
structure InputM where
  bindings : List BInput
  uniforms : Nat
  deriving DecidableEq, Repr

/-- `WriteDescriptorSet { set, binding, element, descriptors }`. -/
structure WriteDesc where
  set : Nat
  binding : Nat
  element : Nat
  payload : Desc
  deriving DecidableEq, Repr

/-- Commands recorded on the encoder by `update`: the
`encoder.update_buffer(&buffer.buffer, 0, slice::from_ref(uniforms))` call. -/
inductive EncCmd where
  | updateBuffer (buffer : BufferM) (offset : Nat) (data : Nat)
  deriving DecidableEq, Repr

/-- The mutable state of one `*Instance` together with the device oracle:
the element ring and the device. -/
structure UpdState where
  cycle : List ElemM
  dev : DeviceM
  deriving DecidableEq, Repr

/-- Result of one `update` call: success carries the state after the call,
the write-descriptions appended to the collector, the encoder commands and
the returned element; `oomAbort` carries the state an `Err(OutOfMemory)`
return leaves behind (no writes, no encoder commands); `crash` marks the
unreachable `unwrap` panic after growth. -/
inductive UpdateResult where
  | ok (s : UpdState) (writes : List WriteDesc) (enc : List EncCmd) (elem : ElemM)
  | oomAbort (s : UpdState)
  | crash (s : UpdState)
  deriving DecidableEq, Repr

/-- The state a result leaves behind. -/
def UpdateResult.state : UpdateResult → UpdState
  | .ok s _ _ _ => s
  | .oomAbort s => s
  | .crash s => s

/-- `new_cycle_elem`: allocate a descriptor set against the layout; every
cache slot starts `None`, the uniforms buffer is not yet allocated. -/
def newCycleElem (d : DeclM) (dev : DeviceM) : Option (ElemM × DeviceM) :=
  if dev.setAllocFail then none
  else
    some ({ set := dev.fresh, descriptors := List.replicate d.kinds.length none,
            uniformsBuffer := none },
          { dev with fresh := dev.fresh + 1 })

/-- The `while self.cycle.len() <= fence` growth loop, unrolled to its
iteration count `n = fence + 1 - cycle.len()`; the boolean reports an
out-of-memory abort (elements pushed so far are kept). -/
def growCycle (d : DeclM) : Nat → List ElemM → DeviceM → List ElemM × DeviceM × Bool
  | 0, cycle, dev => (cycle, dev, false)
  | n + 1, cycle, dev =>
    match newCycleElem d dev with
    | none => (cycle, dev, true)
    | some p => growCycle d n (cycle ++ [p.1]) p.2

/-- The generated `update_uniforms_statement`: on first touch (no backing
buffer) allocate a buffer sized exactly to the uniforms struct, store the
copied-in value and set `write_uniforms`; otherwise refresh the in-memory
value in place with `write_uniforms = false`.  `none` is the
`create_buffer` out-of-memory abort; for declarations without a uniform
block the statement is empty. -/
def uniStep (d : DeclM) (inp : InputM) (dev : DeviceM) (elem : ElemM) :
    Option (ElemM × DeviceM × Bool) :=
  if d.hasUniforms then
    match elem.uniformsBuffer with
    | none =>
      if dev.bufferAllocFail then none
      else
        let buffer : BufferM := { id := dev.fresh, info := { size := d.uniformsSize } }
        some ({ elem with uniformsBuffer := some (inp.uniforms, BufferRangeM.whole buffer) },
              { dev with fresh := dev.fresh + 1 }, true)
    | some (_, r) =>
      some ({ elem with uniformsBuffer := some (inp.uniforms, r) }, dev, false)
  else some (elem, dev, false)

/-- The generated `write_updated_descriptor_statements`: one
`WriteDescriptorSet` per binding whose flag is set, carrying the element's
set, the binding's declaration-order index, element 0 and the cached
payload (the `unwrap` of an empty cache is unreachable and yields nothing). -/
def descriptorWrites (set : Nat) : Nat → List (Option Desc) → List Bool → List WriteDesc
  | _, [], _ => []
  | _, _ :: _, [] => []
  | i, c :: cs, w :: ws =>
    (if w then
       match c with
       | some d0 => [{ set := set, binding := i, element := 0, payload := d0 }]
       | none => []
     else []) ++ descriptorWrites set (i + 1) cs ws

/-- The generated `write_uniforms_statement` write part: when
`write_uniforms` is set, one `WriteDescriptorSet` for the uniform block,
whose binding index is the number of descriptor bindings (the `binding`
counter value after all descriptors), element 0, payload the backing buffer
range. -/
def uniformWrites (d : DeclM) (elem : ElemM) (writeUniforms : Bool) : List WriteDesc :=
  if writeUniforms then
    match elem.uniformsBuffer with
    | some (_, r) =>
      [{ set := elem.set, binding := d.kinds.length, element := 0,
         payload := Desc.bufferRange r }]
    | none => []
  else []

/-- The unconditional `encoder.update_buffer(&buffer.buffer, 0,
slice::from_ref(uniforms))` of `write_uniforms_statement`, issued on every
successful call of a declaration with a uniform block. -/
def uniformEncCmds (d : DeclM) (elem : ElemM) : List EncCmd :=
  if d.hasUniforms then
    match elem.uniformsBuffer with
    | some (u, r) => [.updateBuffer r.buffer 0 u]
    | none => []
  else []

/-- Tail of `update` after both update statements succeeded: store the new
cache column into the element, emit the uniforms write (if
`write_uniforms`), the unconditional buffer-update command, and one write
per dirty binding, and return the element. -/
def writeStage (d : DeclM) (fence : Nat) (cycle : List ElemM) (dev1 : DeviceM)
    (elem1 : ElemM) (writeUniforms : Bool) (cached2 : List (Option Desc))
    (flags : List Bool) : UpdateResult :=
  let elem2 := { elem1 with descriptors := cached2 }
  let writes := uniformWrites d elem2 writeUniforms ++
    descriptorWrites elem2.set 0 cached2 flags
  .ok ⟨cycle.set fence elem2, dev1⟩ writes (uniformEncCmds d elem2) elem2

/-- The generated `update_descriptor_statements` applied to the selected
element: an out-of-memory abort returns `Err(OutOfMemory)` with the element
as mutated so far and nothing appended to `writes` or the encoder. -/
def bindStage (d : DeclM) (inp : InputM) (fence : Nat) (cycle : List ElemM)
    (dev1 : DeviceM) (elem1 : ElemM) (writeUniforms : Bool) : UpdateResult :=
  match updateBindings d.kinds inp.bindings elem1.descriptors with
  | .oomBind cached2 =>
    .oomAbort ⟨cycle.set fence { elem1 with descriptors := cached2 }, dev1⟩
  | .ok cached2 flags => writeStage d fence cycle dev1 elem1 writeUniforms cached2 flags

/-- The generated `update_uniforms_statement` applied to the selected
element: a buffer-allocation failure aborts with the element untouched. -/
def uniformsStage (d : DeclM) (inp : InputM) (fence : Nat) (cycle : List ElemM)
    (dev : DeviceM) (elem : ElemM) : UpdateResult :=
  match uniStep d inp dev elem with
  | none => .oomAbort ⟨cycle, dev⟩
  | some t => bindStage d inp fence cycle t.2.1 t.1 t.2.2

/-- `self.cycle.get_mut(fence).unwrap()`: selection of the ring slot; the
`none` branch is the unreachable `unwrap` panic. -/
def selectStage (d : DeclM) (inp : InputM) (fence : Nat) (cycle : List ElemM)
    (dev : DeviceM) : UpdateResult :=
  match cycle[fence]? with
  | none => .crash ⟨cycle, dev⟩
  | some elem => uniformsStage d inp fence cycle dev elem

/-- The generated `update(input, fence, device, writes, encoder)`: grow the
ring to cover `fence` (an allocation failure there propagates immediately),
then select the element and run the update and write statement blocks. -/
def updateM (d : DeclM) (inp : InputM) (fence : Nat) (s : UpdState) : UpdateResult :=
  let grown := growCycle d (fence + 1 - s.cycle.length) s.cycle s.dev
  if grown.2.2 then .oomAbort ⟨grown.1, grown.2.1⟩
  else selectStage d inp fence grown.1 grown.2.1

/-- Pointwise agreement between a cache column and the values the inputs
resolve to: after a successful update every cache slot holds exactly the
value its input resolves to. -/
def cachedMatches : List BInput → List (Option Desc) → Bool
  | [], [] => true
  | i :: is2, c :: cs => decide (c = some i.val) && cachedMatches is2 cs
  | _, _ => false

/- ## Swapchain lemmas and claim theorems -/

theorem u32sub_eq {a b : Nat} (hb : b ≤ a) (ha : a < 2 ^ 32) : u32sub a b = a - b := by
  unfold u32sub
  have h1 : a + 2 ^ 32 - b = (a - b) + 2 ^ 32 := by omega
  rw [h1, Nat.add_mod_right, Nat.mod_eq_of_lt (by omega)]

theorem configureSw_ok_inner {sw sw2 : SwapchainM} {env : ConfEnv} {u f m : Nat}
    (h : configureSw sw env u f m = .ok sw2) :
    sw2 = { inner := some { images := imageCountOf env.caps, acquired := 0, usage := u, format := f, mode := m, optimal := true }, minImageCount := env.caps.minImageCount } := by
  simp only [configureSw] at h
  split_ifs at h
  · cases hce : env.createErr with
    | some e => rw [hce] at h; exact absurd h (by simp)
    | none => rw [hce] at h; exact absurd h (by simp)
  · cases hce : env.createErr with
    | some e => rw [hce] at h; exact absurd h (by simp)
    | none =>
      rw [hce] at h
      simp only [ConfResult.ok.injEq] at h
      exact h.symm

theorem acquireImage_tooMany {sw : SwapchainM} {inner : InnerM} {b : Bool}
    {natives : List NativeAcq} {confs : List ConfEnv} {fuel : Nat}
    (hinner : sw.inner = some inner)
    (htoo : tooManyCheck inner.images sw.minImageCount inner.acquired = true) :
    acquireImage b sw natives confs (fuel + 1) = .err .tooManyAcquired sw := by
  unfold acquireImage
  rw [hinner]
  simp [htoo]

/-- Claim C1 (amended): along every acquire/present sequence on a configured
swapchain the acquired-image count never exceeds
`image_count - min_image_count + 1`, and an `acquire_image` call made while
`acquired_count > image_count - min_image_count` returns `TooManyAcquired`
leaving the state unchanged, without acquiring an image. -/
theorem acquired_count_bound :
    (∀ imgs minc n, minc ≤ imgs → imgs < 2 ^ 32 → Reach imgs minc n →
       n ≤ imgs - minc + 1) ∧
    (∀ (b : Bool) (sw : SwapchainM) (inner : InnerM) natives confs fuel,
       sw.inner = some inner →
       tooManyCheck inner.images sw.minImageCount inner.acquired = true →
       acquireImage b sw natives confs (fuel + 1) = .err .tooManyAcquired sw) := by
  constructor
  · intro imgs minc n hmin himgs hr
    induction hr with
    | init => exact Nat.zero_le _
    | acquire n idx hr heq ih =>
      have hfalse : tooManyCheck imgs minc n = false := by
        cases htm : tooManyCheck imgs minc n with
        | false => rfl
        | true =>
          have := @acquireImage_tooMany (mkSw imgs minc n)
            { images := imgs, acquired := n, usage := 0, format := 0, mode := 0, optimal := true }
            false [NativeAcq.success idx] [] 0 rfl htm
          rw [heq] at this
          exact absurd this (by simp)
      have hle : n ≤ u32sub imgs minc := by
        have := of_decide_eq_false hfalse
        omega
      rw [u32sub_eq hmin himgs] at hle
      omega
    | present n hr heq ih => omega
  · intro b sw inner natives confs fuel hinner htoo
    exact acquireImage_tooMany hinner htoo

/-- Claim C1, counterexample to the claim as stated: with `image_count = 3`
and `min_image_count = 2` the count 2 is reachable by two successful
acquires, and `2 > image_count - min_image_count = 1`, so the acquired count
does exceed `image_count - min_image_count`. -/
theorem acquired_count_claim_cex : Reach 3 2 2 ∧ ¬(2 ≤ 3 - 2) := by
  refine ⟨Reach.acquire 1 0 (Reach.acquire 0 0 Reach.init (by decide)) (by decide), by decide⟩

/-- Witness for `acquired_count_bound` at a concrete state. -/
theorem acquired_count_bound_witness :
    2 ≤ 3 - 2 + 1 ∧
    acquireImage false (mkSw 3 2 5) [] [] 1 = .err .tooManyAcquired (mkSw 3 2 5) := by
  constructor
  · exact acquired_count_bound.1 3 2 2 (by decide) (by decide)
      (Reach.acquire 1 1 (Reach.acquire 0 1 Reach.init (by decide)) (by decide))
  · exact acquired_count_bound.2 false (mkSw 3 2 5)
      { images := 3, acquired := 5, usage := 0, format := 0, mode := 0, optimal := true }
      [] [] 0 rfl (by decide)

/-- Claim C6: a suboptimal native status marks the generation non-optimal
and still returns the acquired image; an out-of-date status triggers a
reconfigure with the very same usage/format/mode followed by a retry (the
new generation carrying those parameters), and is surfaced as an error only
when that reconfiguration itself fails. -/
theorem suboptimal_outofdate_selfheal :
    (∀ (sw : SwapchainM) (inner : InnerM) natives confs fuel idx,
       sw.inner = some inner →
       tooManyCheck inner.images sw.minImageCount inner.acquired = false →
       acquireImage false sw (NativeAcq.suboptimal idx :: natives) confs (fuel + 1) =
         AcqResult.image idx false { sw with inner := some { inner with optimal := false, acquired := inner.acquired + 1 } }) ∧
    (∀ (sw sw2 : SwapchainM) (inner : InnerM) (env : ConfEnv) natives confs fuel,
       sw.inner = some inner →
       tooManyCheck inner.images sw.minImageCount inner.acquired = false →
       configureSw sw env inner.usage inner.format inner.mode = .ok sw2 →
       acquireImage false sw (NativeAcq.outOfDate :: natives) (env :: confs) (fuel + 1) =
         acquireImage false sw2 natives confs fuel ∧
       ∃ gen, sw2.inner = some gen ∧ gen.usage = inner.usage ∧
         gen.format = inner.format ∧ gen.mode = inner.mode ∧
         gen.optimal = true ∧ gen.acquired = 0) ∧
    (∀ (sw sw2 : SwapchainM) (inner : InnerM) (env : ConfEnv) (e : SurfaceErrM) natives confs fuel,
       sw.inner = some inner →
       tooManyCheck inner.images sw.minImageCount inner.acquired = false →
       configureSw sw env inner.usage inner.format inner.mode = .err e sw2 →
       acquireImage false sw (NativeAcq.outOfDate :: natives) (env :: confs) (fuel + 1) =
         .err e sw2) := by
  refine ⟨?_, ?_, ?_⟩
  · intro sw inner natives confs fuel idx hinner htoo
    unfold acquireImage
    rw [hinner]
    simp [htoo]
  · intro sw sw2 inner env natives confs fuel hinner htoo hconf
    constructor
    · conv_lhs => unfold acquireImage
      rw [hinner]
      simp [htoo, hconf]
    · rw [configureSw_ok_inner hconf]
      exact ⟨_, rfl, rfl, rfl, rfl, rfl, rfl⟩
  · intro sw sw2 inner env e natives confs fuel hinner htoo hconf
    unfold acquireImage
    rw [hinner]
    simp [htoo, hconf]

/-- Witness for `suboptimal_outofdate_selfheal` at a concrete state. -/
theorem suboptimal_outofdate_selfheal_witness :
    acquireImage false (mkSw 4 2 0) [NativeAcq.suboptimal 2] [] 1 =
      AcqResult.image 2 false { mkSw 4 2 0 with inner := some { images := 4, acquired := 1, usage := 0, format := 0, mode := 0, optimal := false } } := by
  have h := suboptimal_outofdate_selfheal.1 (mkSw 4 2 0)
    { images := 4, acquired := 0, usage := 0, format := 0, mode := 0, optimal := true }
    [] [] 0 2 rfl (by decide)
  exact h

/-- Claim C8: a successful `configure` creates the swapchain with image
count `3.clamp(min_image_count, max_image_count or unbounded)` and marks the
new generation optimal; in particular `min_image_count = 2` with no maximum
yields image count 3. -/
theorem configure_image_count :
    (∀ (sw sw2 : SwapchainM) (env : ConfEnv) u f m,
       configureSw sw env u f m = .ok sw2 →
       ∃ gen, sw2.inner = some gen ∧
         gen.images = rustClamp 3 env.caps.minImageCount (env.caps.maxImageCount.getD U32MAX) ∧
         gen.optimal = true) ∧
    (∀ (sw sw2 : SwapchainM) (env : ConfEnv) u f m,
       env.caps.minImageCount = 2 → env.caps.maxImageCount = none →
       configureSw sw env u f m = .ok sw2 →
       ∃ gen, sw2.inner = some gen ∧ gen.images = 3 ∧ gen.optimal = true) := by
  constructor
  · intro sw sw2 env u f m h
    rw [configureSw_ok_inner h]
    exact ⟨_, rfl, rfl, rfl⟩
  · intro sw sw2 env u f m hmin hmax h
    rw [configureSw_ok_inner h]
    refine ⟨_, rfl, ?_, rfl⟩
    simp [imageCountOf, hmin, hmax, rustClamp, U32MAX]

/-- Witness for `configure_image_count` on a concrete surface. -/
theorem configure_image_count_witness :
    ∃ gen, (SwapchainM.mk (some (InnerM.mk 3 0 3 4 5 true)) 2).inner = some gen ∧
      gen.images = 3 ∧ gen.optimal = true := by
  exact configure_image_count.2 ⟨none, 0⟩ (SwapchainM.mk (some (InnerM.mk 3 0 3 4 5 true)) 2)
    ⟨⟨2, none, 3, [4], [5]⟩, none, false⟩ 3 4 5 rfl rfl (by decide)

/- ## Retirement queue claim theorem -/

/-- Claim C4, the code's behaviour at the failing input: a retirement queue
holding one generation (index 7) whose single image still has one
outstanding reference.  The drain loop destroys nothing (first component:
no index is passed to `destroy_swapchain`) — but, because `break 'a` is
reached without pushing the generation back, the generation is dropped
(second component) and the remaining retirement queue is empty (third
component): the generation is not kept in the queue as the claim and the
surrounding drain accounting require. -/
theorem retired_generation_dropped :
    drainRetired [⟨7, [⟨1⟩]⟩] = ([], [⟨7, [⟨1⟩]⟩], []) := by decide

/- ## Buffer binding claim theorem -/

/-- Claim C10: a plain-`Buffer` binding always resolves successfully to the
whole-buffer range and compares equal to that resolved value, and a
`BufferRange` binding resolves to itself and compares equal to it; an
unchanged buffer binding is therefore never re-detected as dirty. -/
theorem buffer_binding_roundtrip :
    ∀ (b : BufferM) (r : BufferRangeM),
      bufferGetDescriptors b = .ok (BufferRangeM.whole b) ∧
      bufferTdbEq b (BufferRangeM.whole b) = true ∧
      bufferRangeGetDescriptors r = .ok r ∧
      bufferRangeTdbEq r r = true := by
  intro b r
  refine ⟨rfl, ?_, rfl, ?_⟩
  · simp [bufferTdbEq, BufferRangeM.whole]
  · simp [bufferRangeTdbEq]

/- ## Descriptor engine lemmas -/

theorem updateBinding_ok_val {k : BindKind} {i : BInput} {c c2 : Option Desc} {w : Bool}
    (h : updateBinding k i c = .ok c2 w) : c2 = some i.val := by
  cases c with
  | some d =>
    simp only [updateBinding] at h
    by_cases h1 : i.val = d
    · rw [if_pos h1] at h
      cases h
      exact (congrArg some h1).symm
    · rw [if_neg h1] at h
      by_cases h2 : (k.fallible && i.fail) = true
      · rw [if_pos h2] at h
        exact BindStep.noConfusion h
      · rw [if_neg h2] at h
        cases h
        rfl
  | none =>
    simp only [updateBinding] at h
    by_cases h2 : (k.fallible && i.fail) = true
    · rw [if_pos h2] at h
      exact BindStep.noConfusion h
    · rw [if_neg h2] at h
      cases h
      rfl

theorem updateBinding_matched {k : BindKind} {i : BInput} :
    updateBinding k i (some i.val) = .ok (some i.val) false := by
  simp [updateBinding]

theorem updateBinding_oom_inv {k : BindKind} {i : BInput} {c : Option Desc}
    (h : updateBinding k i c = .oomStep) : k.fallible = true ∧ i.fail = true := by
  cases c with
  | some d =>
    simp only [updateBinding] at h
    by_cases h1 : i.val = d
    · rw [if_pos h1] at h
      exact BindStep.noConfusion h
    · rw [if_neg h1] at h
      by_cases h2 : (k.fallible && i.fail) = true
      · exact Bool.and_eq_true_iff.mp h2
      · rw [if_neg h2] at h
        exact BindStep.noConfusion h
  | none =>
    simp only [updateBinding] at h
    by_cases h2 : (k.fallible && i.fail) = true
    · exact Bool.and_eq_true_iff.mp h2
    · rw [if_neg h2] at h
      exact BindStep.noConfusion h

theorem cachedMatches_length : ∀ {is2 : List BInput} {cs : List (Option Desc)},
    cachedMatches is2 cs = true → is2.length = cs.length := by
  intro is2
  induction is2 with
  | nil =>
    intro cs h
    cases cs with
    | nil => rfl
    | cons c cs => exact Bool.noConfusion h
  | cons i is2 ih =>
    intro cs h
    cases cs with
    | nil => exact Bool.noConfusion h
    | cons c cs =>
      have h2 := Bool.and_eq_true_iff.mp h
      simp only [List.length_cons, ih h2.2]

theorem cachedMatches_get : ∀ {is2 : List BInput} {cs : List (Option Desc)} {j : Nat} {b : BInput},
    cachedMatches is2 cs = true → is2[j]? = some b → cs[j]? = some (some b.val) := by
  intro is2
  induction is2 with
  | nil => intro cs j b _ hj; simp at hj
  | cons i is2 ih =>
    intro cs j b h hj
    cases cs with
    | nil => exact Bool.noConfusion h
    | cons c cs =>
      have h2 := Bool.and_eq_true_iff.mp h
      cases j with
      | zero =>
        simp only [List.getElem?_cons_zero, Option.some.injEq] at hj
        simp only [List.getElem?_cons_zero, of_decide_eq_true h2.1, hj]
      | succ j =>
        simp only [List.getElem?_cons_succ] at hj ⊢
        exact ih h2.2 hj

theorem updateBindings_ok_matches : ∀ {ks : List BindKind} {is2 : List BInput}
    {cs cs2 : List (Option Desc)} {ws : List Bool},
    ks.length = is2.length → is2.length = cs.length →
    updateBindings ks is2 cs = .ok cs2 ws → cachedMatches is2 cs2 = true := by
  intro ks
  induction ks with
  | nil =>
    intro is2 cs cs2 ws hk hc h
    have his : is2 = [] := List.eq_nil_of_length_eq_zero hk.symm
    have hcs : cs = [] := List.eq_nil_of_length_eq_zero (his ▸ hc).symm
    subst his hcs
    cases h
    rfl
  | cons k ks ih =>
    intro is2 cs cs2 ws hk hc h
    cases is2 with
    | nil => exact absurd hk (by simp)
    | cons i is2 =>
      cases cs with
      | nil => exact absurd hc (by simp)
      | cons c cs =>
        cases hub : updateBinding k i c with
        | oomStep =>
          simp only [updateBindings, hub] at h
          exact BindingsOut.noConfusion h
        | ok c2 w =>
          cases hrec : updateBindings ks is2 cs with
          | oomBind cs3 =>
            simp only [updateBindings, hub, hrec] at h
            exact BindingsOut.noConfusion h
          | ok cs3 ws3 =>
            simp only [updateBindings, hub, hrec] at h
            cases h
            have h1 := updateBinding_ok_val hub
            have h2 := ih (by simpa using hk) (by simpa using hc) hrec
            simp only [cachedMatches, h1, h2, Bool.and_true, decide_eq_true_eq]

theorem updateBindings_matched_noop : ∀ {ks : List BindKind} {is2 : List BInput}
    {cs : List (Option Desc)},
    ks.length = is2.length → cachedMatches is2 cs = true →
    updateBindings ks is2 cs = .ok cs (List.replicate is2.length false) := by
  intro ks
  induction ks with
  | nil =>
    intro is2 cs hk hm
    have his : is2 = [] := List.eq_nil_of_length_eq_zero hk.symm
    subst his
    cases cs with
    | nil => rfl
    | cons c cs => exact Bool.noConfusion hm
  | cons k ks ih =>
    intro is2 cs hk hm
    cases is2 with
    | nil => exact absurd hk (by simp)
    | cons i is2 =>
      cases cs with
      | nil => exact Bool.noConfusion hm
      | cons c cs =>
        have h2 := Bool.and_eq_true_iff.mp hm
        have hc : c = some i.val := of_decide_eq_true h2.1
        subst hc
        simp only [updateBindings, updateBinding_matched, ih (by simpa using hk) h2.2]
        rfl

theorem updateBindings_oom_inv : ∀ {ks : List BindKind} {is2 : List BInput}
    {cs cs2 : List (Option Desc)},
    ks.length = is2.length → is2.length = cs.length →
    updateBindings ks is2 cs = .oomBind cs2 →
    ∃ kf, kf < is2.length ∧
      (∃ b, is2[kf]? = some b ∧ b.fail = true) ∧
      (∀ j, kf ≤ j → cs2[j]? = cs[j]?) ∧
      (∀ j b, j < kf → is2[j]? = some b → cs2[j]? = some (some b.val)) := by
  intro ks
  induction ks with
  | nil =>
    intro is2 cs cs2 hk hc h
    have his : is2 = [] := List.eq_nil_of_length_eq_zero hk.symm
    have hcs : cs = [] := List.eq_nil_of_length_eq_zero (his ▸ hc).symm
    subst his hcs
    exact BindingsOut.noConfusion h
  | cons k ks ih =>
    intro is2 cs cs2 hk hc h
    cases is2 with
    | nil => exact absurd hk (by simp)
    | cons i is2 =>
      cases cs with
      | nil => exact absurd hc (by simp)
      | cons c cs =>
        cases hub : updateBinding k i c with
        | oomStep =>
          simp only [updateBindings, hub] at h
          cases h
          refine ⟨0, by simp, ⟨i, by simp, (updateBinding_oom_inv hub).2⟩, ?_, ?_⟩
          · intro j _
            rfl
          · intro j b hj
            exact absurd hj (Nat.not_lt_zero j)
        | ok c2 w =>
          cases hrec : updateBindings ks is2 cs with
          | ok cs3 ws3 =>
            simp only [updateBindings, hub, hrec] at h
            exact BindingsOut.noConfusion h
          | oomBind cs3 =>
            simp only [updateBindings, hub, hrec] at h
            cases h
            obtain ⟨kf, hkf, ⟨b, hb, hbf⟩, hge, hlt⟩ :=
              ih (by simpa using hk) (by simpa using hc) hrec
            refine ⟨kf + 1, by simpa using hkf, ⟨b, by simpa using hb, hbf⟩, ?_, ?_⟩
            · intro j hj
              cases j with
              | zero => exact absurd hj (by omega)
              | succ j =>
                simp only [List.getElem?_cons_succ]
                exact hge j (by omega)
            · intro j b2 hj hb2
              cases j with
              | zero =>
                simp only [List.getElem?_cons_zero, Option.some.injEq] at hb2
                subst hb2
                simp only [List.getElem?_cons_zero, updateBinding_ok_val hub]
              | succ j =>
                simp only [List.getElem?_cons_succ] at hb2 ⊢
                exact hlt j b2 (by omega) hb2

theorem descriptorWrites_all_false : ∀ (cs : List (Option Desc)) (st i n : Nat),
    descriptorWrites st i cs (List.replicate n false) = [] := by
  intro cs
  induction cs with
  | nil => intro st i n; rfl
  | cons c cs ih =>
    intro st i n
    cases n with
    | zero => rfl
    | succ n =>
      rw [List.replicate_succ]
      have hstep : descriptorWrites st i (c :: cs) (false :: List.replicate n false) =
          descriptorWrites st (i + 1) cs (List.replicate n false) := by
        simp [descriptorWrites]
      rw [hstep]
      exact ih st (i + 1) n

theorem descriptorWrites_mem : ∀ {cs : List (Option Desc)} {ws : List Bool}
    {st i : Nat} {wr : WriteDesc},
    wr ∈ descriptorWrites st i cs ws →
    wr.set = st ∧ i ≤ wr.binding ∧ wr.binding < i + cs.length := by
  intro cs
  induction cs with
  | nil => intro ws st i wr h; simp [descriptorWrites] at h
  | cons c cs ih =>
    intro ws st i wr h
    cases ws with
    | nil => simp [descriptorWrites] at h
    | cons w ws =>
      simp only [descriptorWrites] at h
      rcases List.mem_append.mp h with h1 | h2
      · cases w with
        | false => simp at h1
        | true =>
          cases c with
          | none => simp at h1
          | some d0 =>
            simp at h1
            subst h1
            exact ⟨rfl, Nat.le_refl i, by simp⟩
      · obtain ⟨hs, hle, hlt⟩ := ih h2
        exact ⟨hs, by omega, by simpa [Nat.add_comm, Nat.add_assoc, Nat.add_left_comm] using hlt⟩

theorem uniformWrites_mem {d : DeclM} {elem : ElemM} {wu : Bool} {wr : WriteDesc}
    (h : wr ∈ uniformWrites d elem wu) :
    wr.set = elem.set ∧ wr.binding = d.kinds.length := by
  unfold uniformWrites at h
  cases wu with
  | false => simp at h
  | true =>
    cases hu : elem.uniformsBuffer with
    | none => rw [hu] at h; simp at h
    | some p =>
      rw [hu] at h
      simp at h
      subst h
      exact ⟨rfl, rfl⟩

theorem newCycleElem_some {d : DeclM} {dev dev2 : DeviceM} {e : ElemM}
    (h : newCycleElem d dev = some (e, dev2)) :
    e = ⟨dev.fresh, List.replicate d.kinds.length none, none⟩ ∧
    dev2 = { dev with fresh := dev.fresh + 1 } := by
  by_cases hs : dev.setAllocFail = true
  · rw [newCycleElem, if_pos hs] at h
    exact Option.noConfusion h
  · rw [newCycleElem, if_neg hs] at h
    cases h
    exact ⟨rfl, rfl⟩

theorem newCycleElem_nofail {d : DeclM} {dev : DeviceM} (hs : dev.setAllocFail = false) :
    newCycleElem d dev =
      some (⟨dev.fresh, List.replicate d.kinds.length none, none⟩,
            { dev with fresh := dev.fresh + 1 }) := by
  rw [newCycleElem, if_neg (by rw [hs]; exact Bool.false_ne_true)]

theorem growCycle_zero (d : DeclM) (cycle : List ElemM) (dev : DeviceM) :
    growCycle d 0 cycle dev = (cycle, dev, false) := rfl

theorem growCycle_succ_none {d : DeclM} {dev : DeviceM} (n : Nat) (cycle : List ElemM)
    (hne : newCycleElem d dev = none) :
    growCycle d (n + 1) cycle dev = (cycle, dev, true) := by
  simp only [growCycle, hne]

theorem growCycle_succ_some {d : DeclM} {dev dev2 : DeviceM} {e : ElemM}
    (n : Nat) (cycle : List ElemM) (hne : newCycleElem d dev = some (e, dev2)) :
    growCycle d (n + 1) cycle dev = growCycle d n (cycle ++ [e]) dev2 := by
  simp only [growCycle, hne]

theorem growCycle_length_ge (d : DeclM) :
    ∀ (n : Nat) (cycle : List ElemM) (dev : DeviceM),
      cycle.length ≤ (growCycle d n cycle dev).1.length := by
  intro n
  induction n with
  | zero => intro cycle dev; exact Nat.le_refl _
  | succ n ih =>
    intro cycle dev
    rcases hne : newCycleElem d dev with _ | ⟨e, dev2⟩
    · rw [growCycle_succ_none n cycle hne]
    · rw [growCycle_succ_some n cycle hne]
      calc cycle.length ≤ (cycle ++ [e]).length := by simp
        _ ≤ (growCycle d n (cycle ++ [e]) dev2).1.length := ih _ _

theorem growCycle_nofail_length (d : DeclM) :
    ∀ (n : Nat) (cycle : List ElemM) (dev : DeviceM),
      (growCycle d n cycle dev).2.2 = false →
      (growCycle d n cycle dev).1.length = cycle.length + n := by
  intro n
  induction n with
  | zero => intro cycle dev _; rfl
  | succ n ih =>
    intro cycle dev h
    rcases hne : newCycleElem d dev with _ | ⟨e, dev2⟩
    · rw [growCycle_succ_none n cycle hne] at h
      exact absurd h (by simp)
    · rw [growCycle_succ_some n cycle hne] at h ⊢
      have := ih (cycle ++ [e]) dev2 h
      simp only [List.length_append, List.length_singleton] at this
      omega

theorem growCycle_get_lt (d : DeclM) :
    ∀ (n : Nat) (cycle : List ElemM) (dev : DeviceM) (j : Nat), j < cycle.length →
      (growCycle d n cycle dev).1[j]? = cycle[j]? := by
  intro n
  induction n with
  | zero => intro cycle dev j _; rfl
  | succ n ih =>
    intro cycle dev j hj
    rcases hne : newCycleElem d dev with _ | ⟨e, dev2⟩
    · rw [growCycle_succ_none n cycle hne]
    · rw [growCycle_succ_some n cycle hne]
      rw [ih (cycle ++ [e]) dev2 j (by simp; omega)]
      exact List.getElem?_append_left hj

theorem growCycle_wf (d : DeclM) :
    ∀ (n : Nat) (cycle : List ElemM) (dev : DeviceM),
      (∀ e2 ∈ cycle, e2.descriptors.length = d.kinds.length) →
      ∀ e2 ∈ (growCycle d n cycle dev).1, e2.descriptors.length = d.kinds.length := by
  intro n
  induction n with
  | zero => intro cycle dev hwf; exact hwf
  | succ n ih =>
    intro cycle dev hwf e2 he2
    rcases hne : newCycleElem d dev with _ | ⟨e, dev2⟩
    · rw [growCycle_succ_none n cycle hne] at he2
      exact hwf e2 he2
    · rw [growCycle_succ_some n cycle hne] at he2
      refine ih (cycle ++ [e]) dev2 ?_ e2 he2
      intro e3 he3
      rcases List.mem_append.mp he3 with h3 | h3
      · exact hwf e3 h3
      · rw [List.mem_singleton.mp h3, (newCycleElem_some hne).1]
        simp

theorem growCycle_dev (d : DeclM) :
    ∀ (n : Nat) (cycle : List ElemM) (dev : DeviceM),
      dev.fresh ≤ (growCycle d n cycle dev).2.1.fresh ∧
      (growCycle d n cycle dev).2.1.setAllocFail = dev.setAllocFail ∧
      (growCycle d n cycle dev).2.1.bufferAllocFail = dev.bufferAllocFail := by
  intro n
  induction n with
  | zero => intro cycle dev; exact ⟨Nat.le_refl _, rfl, rfl⟩
  | succ n ih =>
    intro cycle dev
    rcases hne : newCycleElem d dev with _ | ⟨e, dev2⟩
    · rw [growCycle_succ_none n cycle hne]
      exact ⟨Nat.le_refl _, rfl, rfl⟩
    · rw [growCycle_succ_some n cycle hne]
      obtain ⟨-, hd⟩ := newCycleElem_some hne
      subst hd
      obtain ⟨h1, h2, h3⟩ := ih (cycle ++ [e]) _
      exact ⟨Nat.le_trans (Nat.le_succ _) h1, h2, h3⟩

theorem growCycle_nofail (d : DeclM) :
    ∀ (n : Nat) (cycle : List ElemM) (dev : DeviceM),
      dev.setAllocFail = false → (growCycle d n cycle dev).2.2 = false := by
  intro n
  induction n with
  | zero => intro cycle dev _; rfl
  | succ n ih =>
    intro cycle dev hsf
    rw [growCycle_succ_some n cycle (newCycleElem_nofail hsf)]
    exact ih _ _ (by rw [hsf])

theorem growCycle_new_sets (d : DeclM) :
    ∀ (n : Nat) (cycle : List ElemM) (dev : DeviceM) (j : Nat) (e2 : ElemM),
      cycle.length ≤ j → (growCycle d n cycle dev).1[j]? = some e2 →
      dev.fresh ≤ e2.set := by
  intro n
  induction n with
  | zero =>
    intro cycle dev j e2 hj hget
    rw [growCycle_zero] at hget
    rw [List.getElem?_eq_none_iff.mpr hj] at hget
    exact Option.noConfusion hget
  | succ n ih =>
    intro cycle dev j e2 hj hget
    rcases hne : newCycleElem d dev with _ | ⟨e, dev2⟩
    · rw [growCycle_succ_none n cycle hne] at hget
      rw [List.getElem?_eq_none_iff.mpr hj] at hget
      exact Option.noConfusion hget
    · rw [growCycle_succ_some n cycle hne] at hget
      obtain ⟨he, hd⟩ := newCycleElem_some hne
      by_cases hlt : j < (cycle ++ [e]).length
      · rw [growCycle_get_lt d n (cycle ++ [e]) dev2 j hlt] at hget
        have hj2 : j = cycle.length := by simp at hlt; omega
        subst hj2
        rw [List.getElem?_append_right (Nat.le_refl _)] at hget
        simp at hget
        rw [← hget, he]
      · have := ih (cycle ++ [e]) dev2 j e2 (by omega) hget
        rw [hd] at this
        simp at this
        omega

theorem uniStep_no {d : DeclM} (inp : InputM) (dev : DeviceM) (elem : ElemM)
    (hu : d.hasUniforms = false) :
    uniStep d inp dev elem = some (elem, dev, false) := by
  rw [uniStep, if_neg (by rw [hu]; exact Bool.false_ne_true)]

theorem uniStep_first {d : DeclM} (inp : InputM) {dev : DeviceM} {elem : ElemM}
    (hu : d.hasUniforms = true) (hb : elem.uniformsBuffer = none)
    (hf : dev.bufferAllocFail = false) :
    uniStep d inp dev elem =
      some ({ elem with uniformsBuffer := some (inp.uniforms, BufferRangeM.whole ⟨dev.fresh, ⟨d.uniformsSize⟩⟩) }, { dev with fresh := dev.fresh + 1 }, true) := by
  rw [uniStep, if_pos hu, hb]
  rw [if_neg (by rw [hf]; exact Bool.false_ne_true)]

theorem uniStep_first_fail {d : DeclM} (inp : InputM) {dev : DeviceM} {elem : ElemM}
    (hu : d.hasUniforms = true) (hb : elem.uniformsBuffer = none)
    (hf : dev.bufferAllocFail = true) :
    uniStep d inp dev elem = none := by
  rw [uniStep, if_pos hu, hb, if_pos hf]

theorem uniStep_again {d : DeclM} (inp : InputM) (dev : DeviceM) {elem : ElemM}
    {u0 : Nat} {r0 : BufferRangeM} (hu : d.hasUniforms = true)
    (hb : elem.uniformsBuffer = some (u0, r0)) :
    uniStep d inp dev elem =
      some ({ elem with uniformsBuffer := some (inp.uniforms, r0) }, dev, false) := by
  rw [uniStep, if_pos hu, hb]

theorem uniStep_descriptors {d : DeclM} {inp : InputM} {dev dev1 : DeviceM}
    {elem elem1 : ElemM} {wu : Bool}
    (h : uniStep d inp dev elem = some (elem1, dev1, wu)) :
    elem1.descriptors = elem.descriptors ∧ elem1.set = elem.set := by
  by_cases hu : d.hasUniforms = true
  · rcases hb : elem.uniformsBuffer with _ | ⟨u0, r0⟩
    · by_cases hf : dev.bufferAllocFail = true
      · rw [uniStep_first_fail inp hu hb hf] at h
        exact Option.noConfusion h
      · rw [uniStep_first inp hu hb (by simpa using hf)] at h
        cases h
        exact ⟨rfl, rfl⟩
    · rw [uniStep_again inp dev hu hb] at h
      cases h
      exact ⟨rfl, rfl⟩
  · rw [uniStep_no inp dev elem (by simpa using hu)] at h
    cases h
    exact ⟨rfl, rfl⟩

theorem uniStep_uniforms {d : DeclM} {inp : InputM} {dev dev1 : DeviceM}
    {elem elem1 : ElemM} {wu : Bool}
    (hu : d.hasUniforms = true)
    (h : uniStep d inp dev elem = some (elem1, dev1, wu)) :
    ∃ r, elem1.uniformsBuffer = some (inp.uniforms, r) := by
  rcases hb : elem.uniformsBuffer with _ | ⟨u0, r0⟩
  · by_cases hf : dev.bufferAllocFail = true
    · rw [uniStep_first_fail inp hu hb hf] at h
      exact Option.noConfusion h
    · rw [uniStep_first inp hu hb (by simpa using hf)] at h
      cases h
      exact ⟨_, rfl⟩
  · rw [uniStep_again inp dev hu hb] at h
    cases h
    exact ⟨r0, rfl⟩

theorem selectStage_none {d : DeclM} {inp : InputM} {fence : Nat} {cycle : List ElemM}
    {dev : DeviceM} (hget : cycle[fence]? = none) :
    selectStage d inp fence cycle dev = .crash ⟨cycle, dev⟩ := by
  simp only [selectStage, hget]

theorem selectStage_some {d : DeclM} {inp : InputM} {fence : Nat} {cycle : List ElemM}
    {dev : DeviceM} {elem : ElemM} (hget : cycle[fence]? = some elem) :
    selectStage d inp fence cycle dev = uniformsStage d inp fence cycle dev elem := by
  simp only [selectStage, hget]

theorem uniformsStage_none {d : DeclM} {inp : InputM} {fence : Nat} {cycle : List ElemM}
    {dev : DeviceM} {elem : ElemM} (hus : uniStep d inp dev elem = none) :
    uniformsStage d inp fence cycle dev elem = .oomAbort ⟨cycle, dev⟩ := by
  simp only [uniformsStage, hus]

theorem uniformsStage_some {d : DeclM} {inp : InputM} {fence : Nat} {cycle : List ElemM}
    {dev dev1 : DeviceM} {elem elem1 : ElemM} {wu : Bool}
    (hus : uniStep d inp dev elem = some (elem1, dev1, wu)) :
    uniformsStage d inp fence cycle dev elem = bindStage d inp fence cycle dev1 elem1 wu := by
  simp only [uniformsStage, hus]

theorem bindStage_oom {d : DeclM} {inp : InputM} {fence : Nat} {cycle : List ElemM}
    {dev1 : DeviceM} {elem1 : ElemM} {wu : Bool} {cached2 : List (Option Desc)}
    (hub : updateBindings d.kinds inp.bindings elem1.descriptors = .oomBind cached2) :
    bindStage d inp fence cycle dev1 elem1 wu =
      .oomAbort ⟨cycle.set fence { elem1 with descriptors := cached2 }, dev1⟩ := by
  simp only [bindStage, hub]

theorem bindStage_ok {d : DeclM} {inp : InputM} {fence : Nat} {cycle : List ElemM}
    {dev1 : DeviceM} {elem1 : ElemM} {wu : Bool} {cached2 : List (Option Desc)}
    {flags : List Bool}
    (hub : updateBindings d.kinds inp.bindings elem1.descriptors = .ok cached2 flags) :
    bindStage d inp fence cycle dev1 elem1 wu =
      writeStage d fence cycle dev1 elem1 wu cached2 flags := by
  simp only [bindStage, hub]

theorem writeStage_eq (d : DeclM) (fence : Nat) (cycle : List ElemM) (dev1 : DeviceM)
    (elem1 : ElemM) (wu : Bool) (cached2 : List (Option Desc)) (flags : List Bool) :
    writeStage d fence cycle dev1 elem1 wu cached2 flags =
      .ok ⟨cycle.set fence { elem1 with descriptors := cached2 }, dev1⟩
        (uniformWrites d { elem1 with descriptors := cached2 } wu ++
          descriptorWrites { elem1 with descriptors := cached2 }.set 0 cached2 flags)
        (uniformEncCmds d { elem1 with descriptors := cached2 })
        { elem1 with descriptors := cached2 } := rfl

theorem updateM_growfail {d : DeclM} {inp : InputM} {fence : Nat} {s : UpdState}
    {cycle : List ElemM} {dev : DeviceM}
    (hgr : growCycle d (fence + 1 - s.cycle.length) s.cycle s.dev = (cycle, dev, true)) :
    updateM d inp fence s = .oomAbort ⟨cycle, dev⟩ := by
  unfold updateM
  rw [hgr]
  rfl

theorem updateM_grown {d : DeclM} {inp : InputM} {fence : Nat} {s : UpdState}
    {cycle : List ElemM} {dev : DeviceM}
    (hgr : growCycle d (fence + 1 - s.cycle.length) s.cycle s.dev = (cycle, dev, false)) :
    updateM d inp fence s = selectStage d inp fence cycle dev := by
  unfold updateM
  rw [hgr]
  rfl

theorem updateM_ok_inv {d : DeclM} {inp : InputM} {fence : Nat} {s s2 : UpdState}
    {w : List WriteDesc} {e : List EncCmd} {el : ElemM}
    (h : updateM d inp fence s = .ok s2 w e el) :
    ∃ cycle dev elem elem1 dev1 writeUniforms cached2 flags,
      growCycle d (fence + 1 - s.cycle.length) s.cycle s.dev = (cycle, dev, false) ∧
      cycle[fence]? = some elem ∧
      uniStep d inp dev elem = some (elem1, dev1, writeUniforms) ∧
      updateBindings d.kinds inp.bindings elem1.descriptors = .ok cached2 flags ∧
      el = { elem1 with descriptors := cached2 } ∧
      s2 = ⟨cycle.set fence el, dev1⟩ ∧
      w = uniformWrites d el writeUniforms ++ descriptorWrites el.set 0 cached2 flags ∧
      e = uniformEncCmds d el := by
  rcases hgr : growCycle d (fence + 1 - s.cycle.length) s.cycle s.dev with ⟨cycle, dev, failed⟩
  cases failed with
  | true =>
    rw [updateM_growfail hgr] at h
    exact UpdateResult.noConfusion h
  | false =>
    rw [updateM_grown hgr] at h
    rcases hget : cycle[fence]? with _ | elem
    · rw [selectStage_none hget] at h
      exact UpdateResult.noConfusion h
    · rw [selectStage_some hget] at h
      rcases hus : uniStep d inp dev elem with _ | ⟨elem1, dev1, wu⟩
      · rw [uniformsStage_none hus] at h
        exact UpdateResult.noConfusion h
      · rw [uniformsStage_some hus] at h
        cases hub : updateBindings d.kinds inp.bindings elem1.descriptors with
        | oomBind cached2 =>
          rw [bindStage_oom hub] at h
          exact UpdateResult.noConfusion h
        | ok cached2 flags =>
          rw [bindStage_ok hub, writeStage_eq] at h
          cases h
          exact ⟨cycle, dev, elem, elem1, dev1, wu, cached2, flags, rfl, hget, hus, hub,
            rfl, rfl, rfl, rfl⟩

/- ## Descriptor engine claim theorems -/

/-- Claim C7: an `update` call with a fence index at least the ring length
grows the ring to exactly `fence + 1` elements, and no `update` call ever
shrinks the ring. -/
theorem ring_growth_monotone :
    (∀ (d : DeclM) (inp : InputM) (fence : Nat) (s : UpdState),
       s.cycle.length ≤ ((updateM d inp fence s).state).cycle.length) ∧
    (∀ (d : DeclM) (inp : InputM) (fence : Nat) (s s2 : UpdState) w e el,
       s.cycle.length ≤ fence → updateM d inp fence s = .ok s2 w e el →
       s2.cycle.length = fence + 1) := by
  constructor
  · intro d inp fence s
    rcases hgr : growCycle d (fence + 1 - s.cycle.length) s.cycle s.dev with ⟨cycle, dev, failed⟩
    have hlen : s.cycle.length ≤ cycle.length := by
      have h2 := growCycle_length_ge d (fence + 1 - s.cycle.length) s.cycle s.dev
      rw [hgr] at h2
      exact h2
    cases failed with
    | true =>
      rw [updateM_growfail hgr]
      exact hlen
    | false =>
      rw [updateM_grown hgr]
      rcases hget : cycle[fence]? with _ | elem
      · rw [selectStage_none hget]
        exact hlen
      · rw [selectStage_some hget]
        rcases hus : uniStep d inp dev elem with _ | ⟨elem1, dev1, wu⟩
        · rw [uniformsStage_none hus]
          exact hlen
        · rw [uniformsStage_some hus]
          cases hub : updateBindings d.kinds inp.bindings elem1.descriptors with
          | oomBind cached2 =>
            rw [bindStage_oom hub]
            simpa [UpdateResult.state] using hlen
          | ok cached2 flags =>
            rw [bindStage_ok hub, writeStage_eq]
            simpa [UpdateResult.state] using hlen
  · intro d inp fence s s2 w e el hle h
    obtain ⟨cycle, dev, elem, elem1, dev1, wu, cached2, flags, hgr, -, -, -, -, hs2, -, -⟩ :=
      updateM_ok_inv h
    have hlen : cycle.length = s.cycle.length + (fence + 1 - s.cycle.length) := by
      have h2 := growCycle_nofail_length d (fence + 1 - s.cycle.length) s.cycle s.dev
        (by rw [hgr])
      rw [hgr] at h2
      exact h2
    subst hs2
    simp only [List.length_set]
    omega

/-- Witness for `ring_growth_monotone`: growing an empty ring with fence
index 2 yields exactly three ring slots. -/
theorem ring_growth_monotone_witness :
    (UpdState.mk [] ⟨0, false, false⟩).cycle.length ≤
      ((updateM ⟨[.sampler], false, 0⟩ ⟨[⟨.sampler 1, false⟩], 0⟩ 2
        ⟨[], ⟨0, false, false⟩⟩).state).cycle.length ∧
    (UpdState.mk [⟨0, [none], none⟩, ⟨1, [none], none⟩, ⟨2, [some (.sampler 1)], none⟩]
      ⟨3, false, false⟩).cycle.length = 2 + 1 := by
  constructor
  · exact ring_growth_monotone.1 ⟨[.sampler], false, 0⟩ ⟨[⟨.sampler 1, false⟩], 0⟩ 2
      ⟨[], ⟨0, false, false⟩⟩
  · exact ring_growth_monotone.2 ⟨[.sampler], false, 0⟩ ⟨[⟨.sampler 1, false⟩], 0⟩ 2
      ⟨[], ⟨0, false, false⟩⟩
      (UpdState.mk [⟨0, [none], none⟩, ⟨1, [none], none⟩, ⟨2, [some (.sampler 1)], none⟩]
        ⟨3, false, false⟩)
      [⟨2, 0, 0, .sampler 1⟩] [] ⟨2, [some (.sampler 1)], none⟩ (by decide) (by decide)

/-- Claim C3: a second `update` with the very same input and fence index,
issued right after a successful one, appends zero write-descriptions. -/
theorem update_idempotent_no_writes {d : DeclM} {inp : InputM} {fence : Nat}
    {s s1 : UpdState} {w : List WriteDesc} {e : List EncCmd} {el : ElemM}
    (hk : d.kinds.length = inp.bindings.length)
    (hwf : ∀ e0 ∈ s.cycle, e0.descriptors.length = d.kinds.length)
    (h : updateM d inp fence s = .ok s1 w e el) :
    ∃ s2 e2 el2, updateM d inp fence s1 = .ok s2 [] e2 el2 := by
  obtain ⟨cycle, dev, elem, elem1, dev1, wu, cached2, flags, hgr, hget, hus, hub, hel, hs1,
    hw, he⟩ := updateM_ok_inv h
  have hwf2 : ∀ e2 ∈ cycle, e2.descriptors.length = d.kinds.length := by
    have h2 := growCycle_wf d (fence + 1 - s.cycle.length) s.cycle s.dev hwf
    rw [hgr] at h2
    exact h2
  have helen : elem.descriptors.length = d.kinds.length :=
    hwf2 elem (List.getElem?_mem hget)
  have he1len : elem1.descriptors.length = d.kinds.length := by
    rw [(uniStep_descriptors hus).1, helen]
  have hmatch : cachedMatches inp.bindings cached2 = true :=
    updateBindings_ok_matches hk (by rw [he1len]; exact hk.symm) hub
  have hlen : cycle.length = s.cycle.length + (fence + 1 - s.cycle.length) := by
    have h2 := growCycle_nofail_length d (fence + 1 - s.cycle.length) s.cycle s.dev
      (by rw [hgr])
    rw [hgr] at h2
    exact h2
  have hflt : fence < cycle.length := by omega
  subst hel hs1
  have hget1 : (cycle.set fence { elem1 with descriptors := cached2 })[fence]? =
      some { elem1 with descriptors := cached2 } := List.getElem?_set_self hflt
  have hgr2 : growCycle d
      (fence + 1 - (UpdState.mk (cycle.set fence { elem1 with descriptors := cached2 }) dev1).cycle.length)
      (UpdState.mk (cycle.set fence { elem1 with descriptors := cached2 }) dev1).cycle
      (UpdState.mk (cycle.set fence { elem1 with descriptors := cached2 }) dev1).dev =
      (cycle.set fence { elem1 with descriptors := cached2 }, dev1, false) := by
    have hz : fence + 1 - (cycle.set fence { elem1 with descriptors := cached2 }).length = 0 := by
      simp only [List.length_set]
      omega
    dsimp only
    rw [hz]
    rfl
  rw [updateM_grown hgr2, selectStage_some hget1]
  have hus2 : uniStep d inp dev1 { elem1 with descriptors := cached2 } =
      some ({ elem1 with descriptors := cached2 }, dev1, false) := by
    by_cases hhu : d.hasUniforms = true
    · obtain ⟨r, hr⟩ := uniStep_uniforms hhu hus
      have hrel : ({ elem1 with descriptors := cached2 } : ElemM).uniformsBuffer =
          some (inp.uniforms, r) := hr
      rw [uniStep_again inp dev1 hhu hrel]
      rw [← hrel]
    · exact uniStep_no inp dev1 _ (by simpa using hhu)
  rw [uniformsStage_some hus2]
  have hub2 : updateBindings d.kinds inp.bindings
      ({ elem1 with descriptors := cached2 } : ElemM).descriptors =
      .ok cached2 (List.replicate inp.bindings.length false) :=
    updateBindings_matched_noop hk hmatch
  rw [bindStage_ok hub2, writeStage_eq, descriptorWrites_all_false, List.append_nil]
  exact ⟨_, _, _, rfl⟩

/-- Witness for `update_idempotent_no_writes` after one concrete update. -/
theorem update_idempotent_no_writes_witness :
    ∃ s2 e2 el2,
      updateM ⟨[.sampler, .uniformBuffer], true, 16⟩
        ⟨[⟨.sampler 5, false⟩, ⟨.bufferRange ⟨⟨1, ⟨64⟩⟩, 0, 64⟩, false⟩], 42⟩ 0
        ⟨[⟨0, [some (.sampler 5), some (.bufferRange ⟨⟨1, ⟨64⟩⟩, 0, 64⟩)],
           some (42, ⟨⟨1, ⟨16⟩⟩, 0, 16⟩)⟩], ⟨2, false, false⟩⟩ = .ok s2 [] e2 el2 := by
  exact @update_idempotent_no_writes ⟨[.sampler, .uniformBuffer], true, 16⟩
    ⟨[⟨.sampler 5, false⟩, ⟨.bufferRange ⟨⟨1, ⟨64⟩⟩, 0, 64⟩, false⟩], 42⟩ 0
    ⟨[], ⟨0, false, false⟩⟩
    ⟨[⟨0, [some (.sampler 5), some (.bufferRange ⟨⟨1, ⟨64⟩⟩, 0, 64⟩)],
       some (42, ⟨⟨1, ⟨16⟩⟩, 0, 16⟩)⟩], ⟨2, false, false⟩⟩
    [⟨0, 2, 0, .bufferRange ⟨⟨1, ⟨16⟩⟩, 0, 16⟩⟩, ⟨0, 0, 0, .sampler 5⟩,
     ⟨0, 1, 0, .bufferRange ⟨⟨1, ⟨64⟩⟩, 0, 64⟩⟩]
    [.updateBuffer ⟨1, ⟨16⟩⟩ 0 42]
    ⟨0, [some (.sampler 5), some (.bufferRange ⟨⟨1, ⟨64⟩⟩, 0, 64⟩)],
     some (42, ⟨⟨1, ⟨16⟩⟩, 0, 16⟩)⟩
    (by decide) (by decide) (by decide)

theorem pairwise_ne_sets {l : List ElemM} (hpw : l.Pairwise (fun a b => a.set ≠ b.set))
    {i j : Nat} {a b : ElemM} (hne : i ≠ j) (ha : l[i]? = some a) (hb : l[j]? = some b) :
    a.set ≠ b.set := by
  have hi : i < l.length := by
    by_contra hc
    rw [List.getElem?_eq_none_iff.mpr (by omega)] at ha
    exact Option.noConfusion ha
  have hj : j < l.length := by
    by_contra hc
    rw [List.getElem?_eq_none_iff.mpr (by omega)] at hb
    exact Option.noConfusion hb
  rw [List.getElem?_eq_getElem hi] at ha
  rw [List.getElem?_eq_getElem hj] at hb
  have ha2 := Option.some.inj ha
  have hb2 := Option.some.inj hb
  rcases Nat.lt_or_ge i j with hij | hij
  · have h3 := List.pairwise_iff_getElem.mp hpw i j hi hj hij
    simp only [ha2, hb2] at h3
    exact h3
  · have hji : j < i := by omega
    have h3 := List.pairwise_iff_getElem.mp hpw j i hj hi hji
    simp only [ha2, hb2] at h3
    exact h3.symm

/-- Claim C9: an `update` at fence index `fence` leaves every other existing
ring element untouched, and every write-description it emits references the
updated element's descriptor set — never the set of any other element (the
element sets being pairwise distinct and below the device's fresh counter,
as allocation guarantees). -/
theorem update_fence_independent {d : DeclM} {inp : InputM} {fence j : Nat}
    {s s2 : UpdState} {w : List WriteDesc} {e : List EncCmd} {el : ElemM}
    (hj : j < s.cycle.length) (hne : j ≠ fence)
    (hfr : ∀ e0 ∈ s.cycle, e0.set < s.dev.fresh)
    (hpw : s.cycle.Pairwise (fun a b => a.set ≠ b.set))
    (h : updateM d inp fence s = .ok s2 w e el) :
    s2.cycle[j]? = s.cycle[j]? ∧
    (∀ wr ∈ w, wr.set = el.set) ∧
    (∀ ej, s.cycle[j]? = some ej → ∀ wr ∈ w, wr.set ≠ ej.set) := by
  obtain ⟨cycle, dev, elem, elem1, dev1, wu, cached2, flags, hgr, hget, hus, hub, hel, hs2,
    hw, he⟩ := updateM_ok_inv h
  subst hel hs2 hw he
  have hcycj : cycle[j]? = s.cycle[j]? := by
    have h2 := growCycle_get_lt d (fence + 1 - s.cycle.length) s.cycle s.dev j hj
    rw [hgr] at h2
    exact h2
  have hset : ({ elem1 with descriptors := cached2 } : ElemM).set = elem.set :=
    (uniStep_descriptors hus).2
  refine ⟨?_, ?_, ?_⟩
  · rw [List.getElem?_set_ne (Ne.symm hne)]
    exact hcycj
  · intro wr hwr
    rcases List.mem_append.mp hwr with h1 | h2
    · exact (uniformWrites_mem h1).1
    · exact (descriptorWrites_mem h2).1
  · intro ej hej wr hwr
    have hwrs : wr.set = elem.set := by
      rcases List.mem_append.mp hwr with h1 | h2
      · rw [(uniformWrites_mem h1).1]
        exact hset
      · rw [(descriptorWrites_mem h2).1]
        exact hset
    rw [hwrs]
    by_cases hflt : fence < s.cycle.length
    · have hgetf : s.cycle[fence]? = some elem := by
        have h2 := growCycle_get_lt d (fence + 1 - s.cycle.length) s.cycle s.dev fence hflt
        rw [hgr] at h2
        rw [← h2]
        exact hget
      exact pairwise_ne_sets hpw (fun hc => hne hc.symm) hgetf hej
    · have hsets : s.dev.fresh ≤ elem.set :=
        growCycle_new_sets d (fence + 1 - s.cycle.length) s.cycle s.dev fence elem
          (by omega) (by rw [hgr]; exact hget)
      have hejlt := hfr ej (List.getElem?_mem hej)
      omega

/-- Witness for `update_fence_independent` at a concrete two-element ring. -/
theorem update_fence_independent_witness :
    (UpdState.mk [⟨0, [some (.sampler 9)], none⟩, ⟨1, [some (.sampler 2)], none⟩]
        ⟨2, false, false⟩).cycle[1]? =
      (UpdState.mk [⟨0, [some (.sampler 1)], none⟩, ⟨1, [some (.sampler 2)], none⟩]
        ⟨2, false, false⟩).cycle[1]? ∧
    (∀ wr ∈ [WriteDesc.mk 0 0 0 (.sampler 9)],
       wr.set = (ElemM.mk 0 [some (.sampler 9)] none).set) ∧
    (∀ ej, (UpdState.mk [⟨0, [some (.sampler 1)], none⟩, ⟨1, [some (.sampler 2)], none⟩]
        ⟨2, false, false⟩).cycle[1]? = some ej →
       ∀ wr ∈ [WriteDesc.mk 0 0 0 (.sampler 9)], wr.set ≠ ej.set) := by
  exact @update_fence_independent ⟨[.sampler], false, 0⟩ ⟨[⟨.sampler 9, false⟩], 0⟩ 0 1
    ⟨[⟨0, [some (.sampler 1)], none⟩, ⟨1, [some (.sampler 2)], none⟩], ⟨2, false, false⟩⟩
    ⟨[⟨0, [some (.sampler 9)], none⟩, ⟨1, [some (.sampler 2)], none⟩], ⟨2, false, false⟩⟩
    [⟨0, 0, 0, .sampler 9⟩] [] ⟨0, [some (.sampler 9)], none⟩
    (by decide) (by decide) (by decide) (by decide) (by decide)

theorem uniformEncCmds_some {d : DeclM} {elem : ElemM} {u : Nat} {r : BufferRangeM}
    (hu : d.hasUniforms = true) (hb : elem.uniformsBuffer = some (u, r)) :
    uniformEncCmds d elem = [.updateBuffer r.buffer 0 u] := by
  simp [uniformEncCmds, hu, hb]

/-- Claim C5: for an element with a uniform block, the first-touch `update`
allocates the backing buffer (sized exactly to the uniforms struct, at the
device's next fresh identity), emits the one and only write-description for
the uniform-block binding (the last binding index), and records the
buffer-upload command; every later `update` on the same element keeps the
very same buffer range, emits no write-description for the uniform-block
binding, and still refreshes the buffer contents unconditionally through the
encoder. -/
theorem uniform_block_single_allocation {d : DeclM} {inp : InputM} {fence : Nat}
    {s s2 : UpdState} {w : List WriteDesc} {e : List EncCmd} {el elOld : ElemM}
    (hu : d.hasUniforms = true)
    (hk : d.kinds.length = inp.bindings.length)
    (hwf : ∀ e0 ∈ s.cycle, e0.descriptors.length = d.kinds.length)
    (hflt : fence < s.cycle.length)
    (hold : s.cycle[fence]? = some elOld)
    (h : updateM d inp fence s = .ok s2 w e el) :
    (elOld.uniformsBuffer = none →
       el.uniformsBuffer =
         some (inp.uniforms, BufferRangeM.whole ⟨s.dev.fresh, ⟨d.uniformsSize⟩⟩) ∧
       WriteDesc.mk el.set d.kinds.length 0
         (Desc.bufferRange (BufferRangeM.whole ⟨s.dev.fresh, ⟨d.uniformsSize⟩⟩)) ∈ w ∧
       (∀ wr ∈ w, wr.binding = d.kinds.length →
          wr = WriteDesc.mk el.set d.kinds.length 0
            (Desc.bufferRange (BufferRangeM.whole ⟨s.dev.fresh, ⟨d.uniformsSize⟩⟩))) ∧
       e = [EncCmd.updateBuffer ⟨s.dev.fresh, ⟨d.uniformsSize⟩⟩ 0 inp.uniforms]) ∧
    (∀ u0 r0, elOld.uniformsBuffer = some (u0, r0) →
       el.uniformsBuffer = some (inp.uniforms, r0) ∧
       (∀ wr ∈ w, wr.binding ≠ d.kinds.length) ∧
       e = [EncCmd.updateBuffer r0.buffer 0 inp.uniforms]) := by
  obtain ⟨cycle, dev, elem, elem1, dev1, wu, cached2, flags, hgr, hget, hus, hub, hel, hs2,
    hw, he⟩ := updateM_ok_inv h
  have hn0 : fence + 1 - s.cycle.length = 0 := by omega
  rw [hn0, growCycle_zero] at hgr
  cases hgr
  rw [hold] at hget
  obtain rfl := Option.some.inj hget
  have hlen1 : elem1.descriptors.length = d.kinds.length := by
    rw [(uniStep_descriptors hus).1]
    exact hwf elOld (List.getElem?_mem hold)
  have hmatch := updateBindings_ok_matches hk (by rw [hlen1]; exact hk.symm) hub
  have hc2len : cached2.length = d.kinds.length := by
    rw [← cachedMatches_length hmatch]
    exact hk.symm
  subst hel hs2 hw he
  constructor
  · intro hbnone
    by_cases hbfail : s.dev.bufferAllocFail = true
    · rw [uniStep_first_fail inp hu hbnone hbfail] at hus
      exact Option.noConfusion hus
    · rw [uniStep_first inp hu hbnone (by simpa using hbfail)] at hus
      cases hus
      refine ⟨rfl, ?_, ?_, uniformEncCmds_some hu rfl⟩
      · refine List.mem_append.mpr (Or.inl ?_)
        simp [uniformWrites]
      · intro wr hwr hbind
        rcases List.mem_append.mp hwr with h1 | h2
        · simp [uniformWrites] at h1
          rw [h1]
        · have hb2 := (descriptorWrites_mem h2).2.2
          rw [hc2len] at hb2
          omega
  · intro u0 r0 hbsome
    rw [uniStep_again inp s.dev hu hbsome] at hus
    cases hus
    refine ⟨rfl, ?_, uniformEncCmds_some hu rfl⟩
    intro wr hwr
    rcases List.mem_append.mp hwr with h1 | h2
    · simp [uniformWrites] at h1
    · have hb2 := (descriptorWrites_mem h2).2.2
      rw [hc2len] at hb2
      omega

/-- Witness for `uniform_block_single_allocation`: first-touch allocation on
a concrete element. -/
theorem uniform_block_single_allocation_witness :
    ((ElemM.mk 0 [none] none).uniformsBuffer = none →
       (ElemM.mk 0 [some (.sampler 3)]
           (some (7, ⟨⟨1, ⟨8⟩⟩, 0, 8⟩))).uniformsBuffer =
         some (7, BufferRangeM.whole ⟨1, ⟨8⟩⟩) ∧
       WriteDesc.mk 0 1 0 (Desc.bufferRange (BufferRangeM.whole ⟨1, ⟨8⟩⟩)) ∈
         [WriteDesc.mk 0 1 0 (.bufferRange ⟨⟨1, ⟨8⟩⟩, 0, 8⟩), ⟨0, 0, 0, .sampler 3⟩] ∧
       (∀ wr ∈ [WriteDesc.mk 0 1 0 (.bufferRange ⟨⟨1, ⟨8⟩⟩, 0, 8⟩), ⟨0, 0, 0, .sampler 3⟩],
          wr.binding = 1 →
          wr = WriteDesc.mk 0 1 0 (Desc.bufferRange (BufferRangeM.whole ⟨1, ⟨8⟩⟩))) ∧
       [EncCmd.updateBuffer ⟨1, ⟨8⟩⟩ 0 7] = [EncCmd.updateBuffer ⟨1, ⟨8⟩⟩ 0 7]) ∧
    (∀ u0 r0, (ElemM.mk 0 [none] none).uniformsBuffer = some (u0, r0) →
       (ElemM.mk 0 [some (.sampler 3)]
           (some (7, ⟨⟨1, ⟨8⟩⟩, 0, 8⟩))).uniformsBuffer = some (7, r0) ∧
       (∀ wr ∈ [WriteDesc.mk 0 1 0 (.bufferRange ⟨⟨1, ⟨8⟩⟩, 0, 8⟩), ⟨0, 0, 0, .sampler 3⟩],
          wr.binding ≠ 1) ∧
       [EncCmd.updateBuffer ⟨1, ⟨8⟩⟩ 0 7] = [EncCmd.updateBuffer r0.buffer 0 7]) := by
  exact @uniform_block_single_allocation ⟨[.sampler], true, 8⟩ ⟨[⟨.sampler 3, false⟩], 7⟩ 0
    ⟨[⟨0, [none], none⟩], ⟨1, false, false⟩⟩
    ⟨[⟨0, [some (.sampler 3)], some (7, ⟨⟨1, ⟨8⟩⟩, 0, 8⟩)⟩], ⟨2, false, false⟩⟩
    [⟨0, 1, 0, .bufferRange ⟨⟨1, ⟨8⟩⟩, 0, 8⟩⟩, ⟨0, 0, 0, .sampler 3⟩]
    [.updateBuffer ⟨1, ⟨8⟩⟩ 0 7]
    ⟨0, [some (.sampler 3)], some (7, ⟨⟨1, ⟨8⟩⟩, 0, 8⟩)⟩ ⟨0, [none], none⟩
    (by decide) (by decide) (by decide) (by decide) (by decide) (by decide)

/-- Claim C2, counterexample to the claim as stated: two sampled-image
bindings both change; the first resolves successfully (its cache is
overwritten), then the second binding's resolution fails with out-of-memory.
The call aborts with the error, but the selected element is not "exactly
what it was before the update call began": its first cache slot already
holds the newly resolved view. -/
theorem update_oom_element_mutated_cex :
    updateM ⟨[.sampledImage, .sampledImage], false, 0⟩
        ⟨[⟨.imageView 10, false⟩, ⟨.imageView 20, true⟩], 0⟩ 0
        ⟨[⟨0, [some (.imageView 1), some (.imageView 2)], none⟩], ⟨1, false, false⟩⟩ =
      .oomAbort ⟨[⟨0, [some (.imageView 10), some (.imageView 2)], none⟩],
        ⟨1, false, false⟩⟩ ∧
    ¬([ElemM.mk 0 [some (.imageView 10), some (.imageView 2)] none] =
      [ElemM.mk 0 [some (.imageView 1), some (.imageView 2)] none]) := by
  exact ⟨by decide, by decide⟩

/-- Claim C2 (amended): when a binding's resolution fails with OutOfMemory
the error is propagated immediately — the call returns `Err(OutOfMemory)`
and appends nothing to the write collector or the encoder — and the failing
binding's cache slot and every later binding's cache slot are exactly what
they were before the call; but the bindings processed earlier in
declaration order already hold the input's resolved values, and the
uniforms value has already been refreshed in place (the backing buffer
range itself unchanged). -/
theorem update_oom_prefix_state {d : DeclM} {inp : InputM} {fence : Nat}
    {s s2 : UpdState} {elOld : ElemM}
    (hk : d.kinds.length = inp.bindings.length)
    (hwf : ∀ e0 ∈ s.cycle, e0.descriptors.length = d.kinds.length)
    (hbf : s.dev.bufferAllocFail = false)
    (hflt : fence < s.cycle.length)
    (hold : s.cycle[fence]? = some elOld)
    (h : updateM d inp fence s = .oomAbort s2) :
    ∃ kf el2, kf < inp.bindings.length ∧
      s2.cycle[fence]? = some el2 ∧
      (∃ b, inp.bindings[kf]? = some b ∧ b.fail = true) ∧
      (∀ i, kf ≤ i → el2.descriptors[i]? = elOld.descriptors[i]?) ∧
      (∀ i b, i < kf → inp.bindings[i]? = some b → el2.descriptors[i]? = some (some b.val)) ∧
      (∀ j, j ≠ fence → s2.cycle[j]? = s.cycle[j]?) ∧
      el2.set = elOld.set ∧
      (∀ u0 r0, elOld.uniformsBuffer = some (u0, r0) →
         el2.uniformsBuffer = some ((if d.hasUniforms then inp.uniforms else u0), r0)) := by
  have hn0 : fence + 1 - s.cycle.length = 0 := by omega
  have hgr : growCycle d (fence + 1 - s.cycle.length) s.cycle s.dev =
      (s.cycle, s.dev, false) := by rw [hn0]; rfl
  rw [updateM_grown hgr, selectStage_some hold] at h
  obtain ⟨elem1, dev1, wu, hus⟩ :
      ∃ elem1 dev1 wu, uniStep d inp s.dev elOld = some (elem1, dev1, wu) := by
    by_cases hhu : d.hasUniforms = true
    · rcases hb : elOld.uniformsBuffer with _ | ⟨u0, r0⟩
      · exact ⟨_, _, _, uniStep_first inp hhu hb hbf⟩
      · exact ⟨_, _, _, uniStep_again inp s.dev hhu hb⟩
    · exact ⟨_, _, _, uniStep_no inp s.dev elOld (by simpa using hhu)⟩
  rw [uniformsStage_some hus] at h
  cases hub : updateBindings d.kinds inp.bindings elem1.descriptors with
  | ok cached2 flags =>
    rw [bindStage_ok hub, writeStage_eq] at h
    exact UpdateResult.noConfusion h
  | oomBind cached2 =>
    rw [bindStage_oom hub] at h
    cases h
    have hd1 : elem1.descriptors = elOld.descriptors := (uniStep_descriptors hus).1
    have hlen1 : elem1.descriptors.length = d.kinds.length := by
      rw [hd1]
      exact hwf elOld (List.getElem?_mem hold)
    obtain ⟨kf, hkf, hbfail, hge, hlt⟩ :=
      updateBindings_oom_inv hk (by rw [hlen1]; exact hk.symm) hub
    refine ⟨kf, { elem1 with descriptors := cached2 }, hkf,
      List.getElem?_set_self hflt, hbfail, ?_, ?_, ?_, (uniStep_descriptors hus).2, ?_⟩
    · intro i hi
      exact hd1 ▸ hge i hi
    · intro i b hi hb
      exact hlt i b hi hb
    · intro j hjne
      exact List.getElem?_set_ne (Ne.symm hjne)
    · intro u0 r0 hbs
      by_cases hhu : d.hasUniforms = true
      · rw [uniStep_again inp s.dev hhu hbs] at hus
        cases hus
        rw [if_pos hhu]
      · have hhu2 : d.hasUniforms = false := by simpa using hhu
        rw [uniStep_no inp s.dev elOld hhu2] at hus
        cases hus
        rw [if_neg hhu]
        exact hbs

/-- Witness for `update_oom_prefix_state`: a two-buffer-binding element
where the first binding changes and resolves, then the second binding's
resolution reports out-of-memory. -/
theorem update_oom_prefix_state_witness :
    ∃ kf el2, kf < ([⟨Desc.bufferRange ⟨⟨5, ⟨16⟩⟩, 0, 16⟩, false⟩,
        ⟨Desc.bufferRange ⟨⟨6, ⟨32⟩⟩, 0, 32⟩, true⟩] : List BInput).length ∧
      (UpdState.mk [⟨4, [some (.bufferRange ⟨⟨5, ⟨16⟩⟩, 0, 16⟩),
          some (.bufferRange ⟨⟨2, ⟨32⟩⟩, 0, 32⟩)], none⟩]
        ⟨7, false, false⟩).cycle[0]? = some el2 ∧
      (∃ b, ([⟨Desc.bufferRange ⟨⟨5, ⟨16⟩⟩, 0, 16⟩, false⟩,
          ⟨Desc.bufferRange ⟨⟨6, ⟨32⟩⟩, 0, 32⟩, true⟩] : List BInput)[kf]? = some b ∧
        b.fail = true) ∧
      (∀ i, kf ≤ i → el2.descriptors[i]? =
        (ElemM.mk 4 [some (.bufferRange ⟨⟨1, ⟨16⟩⟩, 0, 16⟩),
          some (.bufferRange ⟨⟨2, ⟨32⟩⟩, 0, 32⟩)] none).descriptors[i]?) ∧
      (∀ i b, i < kf → ([⟨Desc.bufferRange ⟨⟨5, ⟨16⟩⟩, 0, 16⟩, false⟩,
          ⟨Desc.bufferRange ⟨⟨6, ⟨32⟩⟩, 0, 32⟩, true⟩] : List BInput)[i]? = some b →
        el2.descriptors[i]? = some (some b.val)) ∧
      (∀ j, j ≠ 0 → (UpdState.mk [⟨4, [some (.bufferRange ⟨⟨5, ⟨16⟩⟩, 0, 16⟩),
          some (.bufferRange ⟨⟨2, ⟨32⟩⟩, 0, 32⟩)], none⟩] ⟨7, false, false⟩).cycle[j]? =
        (UpdState.mk [⟨4, [some (.bufferRange ⟨⟨1, ⟨16⟩⟩, 0, 16⟩),
          some (.bufferRange ⟨⟨2, ⟨32⟩⟩, 0, 32⟩)], none⟩] ⟨7, false, false⟩).cycle[j]?) ∧
      el2.set = (ElemM.mk 4 [some (.bufferRange ⟨⟨1, ⟨16⟩⟩, 0, 16⟩),
        some (.bufferRange ⟨⟨2, ⟨32⟩⟩, 0, 32⟩)] none).set ∧
      (∀ u0 r0, (ElemM.mk 4 [some (.bufferRange ⟨⟨1, ⟨16⟩⟩, 0, 16⟩),
          some (.bufferRange ⟨⟨2, ⟨32⟩⟩, 0, 32⟩)] none).uniformsBuffer = some (u0, r0) →
        el2.uniformsBuffer =
          some ((if (DeclM.mk [.uniformBuffer, .storageBuffer] false 0).hasUniforms
            then (0 : Nat) else u0), r0)) := by
  exact @update_oom_prefix_state ⟨[.uniformBuffer, .storageBuffer], false, 0⟩
    ⟨[⟨.bufferRange ⟨⟨5, ⟨16⟩⟩, 0, 16⟩, false⟩, ⟨.bufferRange ⟨⟨6, ⟨32⟩⟩, 0, 32⟩, true⟩], 0⟩ 0
    ⟨[⟨4, [some (.bufferRange ⟨⟨1, ⟨16⟩⟩, 0, 16⟩),
        some (.bufferRange ⟨⟨2, ⟨32⟩⟩, 0, 32⟩)], none⟩], ⟨7, false, false⟩⟩
    ⟨[⟨4, [some (.bufferRange ⟨⟨5, ⟨16⟩⟩, 0, 16⟩),
        some (.bufferRange ⟨⟨2, ⟨32⟩⟩, 0, 32⟩)], none⟩], ⟨7, false, false⟩⟩
    ⟨4, [some (.bufferRange ⟨⟨1, ⟨16⟩⟩, 0, 16⟩),
        some (.bufferRange ⟨⟨2, ⟨32⟩⟩, 0, 32⟩)], none⟩
    (by decide) (by decide) (by decide) (by decide) (by decide) (by decide)

end Sierra
